import Mathlib

/-!
# Conversation session engine of `main.go`

A shallow embedding of the session part of the Telegram relay bot:
the time-window pruning and round budget of `handleMessage`, the retry loop
`callOpenAIWithRetry`, the response decoding tail of `callOpenAI`, the token
estimator `calculateTokens`, `clearConversationHistory`, the window anchor and
remaining-time report of `handleMessage`, and `escapeMarkdownV2`.

Modelling conventions
* A `time.Time` is an `Int`: nanoseconds on one clock. A `time.Duration` is an
  `Int` count of nanoseconds; where the program multiplies durations the
  int64 wrap-around is explicit (`wrapInt64`).
* Go `int` values are `Int`.
* Go strings are Lean `String`s (valid UTF-8); `len` is the UTF-8 byte count.
* The globals `conversationHistory`, `remainingRounds`, `interactionTime` are the
  fields of `Session`; `config` and `systemPrompt` are read-only after start-up and
  live in `Config`.
* The network is an input: each attempt of `callOpenAI` is given the `Attempt` that
  describes what the HTTP exchange produced.
* A float64 is the rational it denotes; every float64 operation is the exact
  operation followed by `roundFloat64` (round to nearest, ties to even).
* Every reading of the clock is an input of the function that reads it.
-/

namespace Fyaitg

/-! ## Data model -/

/-- The `Message` struct (lines 52-56). -/
structure Message where
  role : String
  content : String
  time : Int
deriving DecidableEq

/-- The fields of `Config` (lines 20-29) that the session engine reads;
`systemPrompt` is the global copied from `config.SystemPrompt` on line 106. -/
structure Config where
  systemPrompt : String
  historyLength : Int
  historyTimeoutMinutes : Int
deriving DecidableEq

/-- The mutable globals of lines 83, 87, 89. -/
structure Session where
  conversationHistory : List Message
  remainingRounds : Int
  interactionTime : Int
deriving DecidableEq

/-- The `Usage` block of `OpenAIResponse` (lines 64-68). -/
structure Usage where
  promptTokens : Int
  completionTokens : Int
  totalTokens : Int
deriving DecidableEq

/-- The `OpenAIResponse` struct (lines 58-69): the content of each choice, and the
usage pointer (`none` is the nil pointer). -/
structure OpenAIResponse where
  choices : List String
  usage : Option Usage
deriving DecidableEq

/-- What the HTTP exchange of one `callOpenAI` run produced, up to line 484. -/
inductive Exchange where
  /-- Marshalling, building or sending the request failed (lines 444-466). -/
  | requestFailed
  /-- Reading the body failed (lines 469-473). -/
  | readFailed
  /-- The body is no `OpenAIResponse` but decodes as an error envelope (lines 478-481). -/
  | apiError (type message : String)
  /-- The body decodes as neither (lines 482-483). -/
  | undecodable
  /-- The body decoded as an `OpenAIResponse` (line 476). -/
  | decoded (resp : OpenAIResponse)
deriving DecidableEq

/-- One attempt: the exchange and the reading of `time.Now()` on line 488. -/
structure Attempt where
  exchange : Exchange
  time : Int
deriving DecidableEq

/-- The five return values of `callOpenAI` and `callOpenAIWithRetry`;
`err = none` is the nil error, otherwise the error text. -/
structure CallResult where
  response : String
  inputTokens : Int
  outputTokens : Int
  isAPITokenCount : Bool
  err : Option String
deriving DecidableEq

/-- A retry run: the returned values, the session afterwards, and how many times
`callOpenAI` was invoked. -/
structure RetryOutcome where
  result : CallResult
  session : Session
  attempts : Nat
deriving DecidableEq

/-! ## Constants and time arithmetic -/

/-- Line 95. -/
def maxRetries : Nat := 3

/-- The constant `time.Minute`, in nanoseconds. -/
def Minute : Int := 60000000000

/-- Two's-complement int64 wrap-around. -/
def wrapInt64 (x : Int) : Int := (x + 2 ^ 63) % 2 ^ 64 - 2 ^ 63

/-- A value that an int64 (hence a `time.Duration`) can hold. -/
def fitsInt64 (x : Int) : Prop := -(2 ^ 63) ≤ x ∧ x < 2 ^ 63

instance (x : Int) : Decidable (fitsInt64 x) := by
  unfold fitsInt64; exact inferInstance

/-- The duration `-time.Duration(config.HistoryTimeoutMinutes) * time.Minute` of line 250. -/
def negWindow (cfg : Config) : Int :=
  wrapInt64 (wrapInt64 (-cfg.historyTimeoutMinutes) * Minute)

/-- The instant `cutoffTime` of line 250. -/
def cutoffTime (cfg : Config) (now : Int) : Int := now + negWindow cfg

/-! ## Token estimator -/

/-- Go's `unicode.IsSpace`. -/
def isSpace (c : Char) : Bool :=
  let n := c.toNat
  (9 ≤ n && n ≤ 13) || n == 32 || n == 133 || n == 160 || n == 5760 ||
    (8192 ≤ n && n ≤ 8202) || n == 8232 || n == 8233 || n == 8239 || n == 8287 ||
    n == 12288

/-- Loop state of Go's `strings.FieldsFunc`: the fields closed so far and the
field being read (`none` when `start < 0`). -/
structure FieldsState where
  spans : List (List Char)
  cur : Option (List Char)

/-- One iteration of the scanning loop of `strings.FieldsFunc`. -/
def fieldsStep (st : FieldsState) (r : Char) : FieldsState :=
  if isSpace r then
    match st.cur with
    | some w => { spans := st.spans ++ [w], cur := none }
    | none => st
  else
    match st.cur with
    | some w => { st with cur := some (w ++ [r]) }
    | none => { st with cur := some [r] }

/-- The end of `strings.FieldsFunc`: a field still open at the end of the string is
closed there. -/
def fieldsFinish (st : FieldsState) : List (List Char) :=
  match st.cur with
  | some w => st.spans ++ [w]
  | none => st.spans

/-- Go's `strings.Fields` on the characters of a string. -/
def fields (s : List Char) : List (List Char) :=
  fieldsFinish (s.foldl fieldsStep { spans := [], cur := none })

/-- Go's `len` of a string: its UTF-8 byte count. -/
def byteLen (w : List Char) : Nat := (w.map Char.utf8Size).sum

/-- The two dynamic types `calculateTokens` is called with (lines 513, 515). -/
inductive TokenInput where
  | text (v : String)
  | messages (v : List Message)

/-- Lines 511-519: the text that is split into words. -/
def tokenText : TokenInput → String
  | .text v => v
  | .messages v => v.foldl (fun text msg => text ++ (msg.content ++ " ")) ""

/-- The function `calculateTokens` (lines 510-526). -/
def calculateTokens (history : TokenInput) : Int :=
  (fields (tokenText history).toList).foldl
    (fun tokens word => tokens + ((byteLen word : Int) + 3) / 4) 0

/-! ## Completion client -/

/-- The function `callOpenAI` (lines 434-508) on one exchange. `history` is the
argument, `s` holds the globals; the assistant message is appended to the global
history on line 488. -/
def callOpenAI (a : Attempt) (history : List Message) (s : Session) :
    CallResult × Session :=
  match a.exchange with
  | .requestFailed => (⟨"", 0, 0, false, some "Error processing request"⟩, s)
  | .readFailed => (⟨"", 0, 0, false, some "Error processing response"⟩, s)
  | .apiError type message =>
      (⟨"", 0, 0, false, some ("API Error: " ++ type ++ " - " ++ message)⟩, s)
  | .undecodable => (⟨"", 0, 0, false, some "Error processing response"⟩, s)
  | .decoded resp =>
      match resp.choices with
      | response :: _ =>
          let s1 : Session :=
            { s with conversationHistory :=
                s.conversationHistory ++ [⟨"assistant", response, a.time⟩] }
          match resp.usage with
          | some u =>
              if u.promptTokens > 0 ∧ u.completionTokens > 0 then
                (⟨response, u.promptTokens, u.completionTokens, true, none⟩, s1)
              else
                (⟨response, calculateTokens (.messages history),
                  calculateTokens (.text response), false, none⟩, s1)
          | none =>
              (⟨response, calculateTokens (.messages history),
                calculateTokens (.text response), false, none⟩, s1)
      | [] => (⟨"", 0, 0, false, some "No response from AI"⟩, s)

/-- How `%v` prints `lastErr` on line 431. -/
def showErr : Option String → String
  | some e => e
  | none => "<nil>"

/-- The loop of `callOpenAIWithRetry` (lines 418-431) with `n` iterations left,
loop index `i` and the current `lastErr`. The completion function is the parameter
`call`: `call i` is its `i`-th invocation (counted from 0). -/
def retryLoop (call : Nat → List Message → Session → CallResult × Session)
    (history : List Message) : Nat → Nat → Option String → Session → RetryOutcome
  | 0, i, lastErr, s =>
      ⟨⟨"", 0, 0, false, some ("All attempts failed. Last error: " ++ showErr lastErr)⟩, s, i⟩
  | n + 1, i, _, s =>
      let r := call i history s
      match r.1.err with
      | none =>
          ⟨⟨r.1.response, r.1.inputTokens, r.1.outputTokens, r.1.isAPITokenCount, none⟩,
            r.2, i + 1⟩
      | some e => retryLoop call history n (i + 1) (some e) r.2

/-- The body of `callOpenAIWithRetry` (lines 416-432) over an arbitrary completion
function. -/
def retryWith (call : Nat → List Message → Session → CallResult × Session)
    (history : List Message) (s : Session) : RetryOutcome :=
  retryLoop call history maxRetries 0 none s

/-- The function `callOpenAIWithRetry` (lines 416-432): `up i` is the exchange that
the call of iteration `i` meets. -/
def callOpenAIWithRetry (up : Nat → Attempt) (history : List Message) (s : Session) :
    RetryOutcome :=
  retryWith (fun i => callOpenAI (up i)) history s

/-! ## Session engine -/

/-- The system-prompt seed: empty, or the system message stamped `t`
(lines 138-140, 265-267, 377-379). -/
def seed (cfg : Config) (t : Int) : List Message :=
  if cfg.systemPrompt ≠ "" then [⟨"system", cfg.systemPrompt, t⟩] else []

/-- The session set up by `main` (lines 106-109, 138-140): `startTime` is the
reading of line 108, `seedTime` that of line 139. -/
def initSession (cfg : Config) (startTime seedTime : Int) : Session :=
  { conversationHistory := seed cfg seedTime
    remainingRounds := cfg.historyLength
    interactionTime := startTime }

/-- The pruning loop of `handleMessage` (lines 249-255). -/
def pruneHistory (cfg : Config) (now : Int) (history : List Message) : List Message :=
  history.foldl
    (fun newHistory msg =>
      if msg.time > cutoffTime cfg now then newHistory ++ [msg] else newHistory) []

/-- Lines 249-258 of `handleMessage`: prune, then append the user message. -/
def pruneAndAppend (cfg : Config) (text : String) (now : Int) (s : Session) : Session :=
  { s with conversationHistory :=
      pruneHistory cfg now s.conversationHistory ++ [⟨"user", text, now⟩] }

/-- Lines 260-268 of `handleMessage`: the round check. -/
def roundCheck (cfg : Config) (now : Int) (s : Session) : Session :=
  if s.remainingRounds > 0 then
    { s with remainingRounds := s.remainingRounds - 1 }
  else
    { s with remainingRounds := cfg.historyLength, conversationHistory := seed cfg now }

/-- The session of `handleMessage` when it reaches the call on line 280. -/
def preCall (cfg : Config) (text : String) (now : Int) (s : Session) : Session :=
  roundCheck cfg now (pruneAndAppend cfg text now s)

/-- The function `handleMessage` from line 247 to the return of the retrying call
(line 283): `text` is `message.Text`, `now` the reading of line 247, `up` the
exchanges of this turn. -/
def handleMessage (cfg : Config) (up : Nat → Attempt) (text : String) (now : Int)
    (s : Session) : RetryOutcome :=
  let s1 := preCall cfg text now s
  callOpenAIWithRetry up s1.conversationHistory s1

/-- The function `clearConversationHistory` (lines 373-379); `t` is the reading of
`time.Now()` on line 376. -/
def clearConversationHistory (cfg : Config) (t : Int) (_s : Session) : Session :=
  { conversationHistory := seed cfg t
    remainingRounds := cfg.historyLength
    interactionTime := t }

/-- A user turn as data: the text, the reading of `now`, and the exchanges. -/
structure Turn where
  text : String
  now : Int
  up : Nat → Attempt

/-- The session after a sequence of user turns, oldest first. -/
def runTurns (cfg : Config) (s : Session) : List Turn → Session
  | [] => s
  | t :: ts => runTurns cfg (handleMessage cfg t.up t.text t.now s).session ts

/-- The round-counter range of the data model: `0 <= remainingRounds <= historyLength`. -/
def roundsInRange (cfg : Config) (s : Session) : Prop :=
  0 ≤ s.remainingRounds ∧ s.remainingRounds ≤ cfg.historyLength

/-- The estimator as the specification words it: split the text at every whitespace
character, keep the non-empty pieces (the maximal whitespace-free words), and add up
`ceil(len(word) / 4)`. -/
def specEstimate (text : String) : Int :=
  (((text.toList.splitOnP isSpace).filter (fun w => !w.isEmpty)).map
    (fun w => (Nat.ceil ((byteLen w : ℚ) / 4) : Int))).sum

/-! ## Markdown escaping -/

/-- The scan of Go's `strings.ReplaceAll(s, old, new)` for a non-empty `old`: the
occurrences of `old` are found from left to right and do not overlap. The counter is
the number of characters of the occurrence just replaced that are still to be passed
over. -/
def replaceFrom (old new : List Char) : Nat → List Char → List Char
  | _, [] => []
  | k + 1, _ :: rest => replaceFrom old new k rest
  | 0, c :: rest =>
      if old.isPrefixOf (c :: rest) then new ++ replaceFrom old new (old.length - 1) rest
      else c :: replaceFrom old new 0 rest

/-- Go's `strings.ReplaceAll` (for a non-empty `old`). -/
def replaceAll (s old new : String) : String :=
  String.mk (replaceFrom old.toList new.toList 0 s.toList)

/-- The list `specialChars` of `escapeMarkdownV2` (lines 613-618), in its order. -/
def specialChars : List String :=
  ["_", "*", "[", "]", "(", ")", "~", "\x60", ">",
   "#", "+", "-", "=", "|", "\x7b", "\x7d", ".", "!",
   ",", ":", ";", "/", "\\", "^", "$", "&", "%",
   "<", "\x27"]

/-- The function `escapeMarkdownV2` (lines 611-631): the first loop (lines 621-623),
then the second loop (lines 626-628). -/
def escapeMarkdownV2 (text : String) : String :=
  let text1 := specialChars.foldl (fun text char => replaceAll text char ("\\" ++ char)) text
  specialChars.foldl
    (fun text char => replaceAll text ("\\\\" ++ char) ("\\" ++ char)) text1

/-- Whether a character is one of `specialChars`. -/
def isSpecial (c : Char) : Bool := specialChars.contains (String.singleton c)

/-- The reading of an escaped text that C12 describes: from left to right, a unit is
a single non-special character, or a backslash followed by one special character (which
stands for that character). The result is `none` when the text is not made of such
units, that is, when a special character is left without its backslash. -/
def unescapeUnits : List Char → Option (List Char)
  | [] => some []
  | c :: rest =>
      if c = '\\' then
        match rest with
        | d :: rest2 =>
            if isSpecial d then (unescapeUnits rest2).map (fun t => d :: t) else none
        | [] => none
      else if isSpecial c then none
      else (unescapeUnits rest).map (fun t => c :: t)

/-! ## Window anchor and remaining window time -/

/-- The constant `time.Second`, in nanoseconds. -/
def Second : Int := 1000000000

/-- Rounding of a rational to the nearest integer, ties to the even one. -/
def roundEven (q : ℚ) : Int :=
  if q - ⌊q⌋ < 1 / 2 then ⌊q⌋
  else if 1 / 2 < q - ⌊q⌋ then ⌊q⌋ + 1
  else if ⌊q⌋ % 2 = 0 then ⌊q⌋ else ⌊q⌋ + 1

/-- The exponent of the float64 binade of `x`: `floor(log2 |x|)`, and -1022 (the
exponent of the subnormal numbers) when that is smaller. -/
def float64Exp (x : ℚ) : Int := max (Int.log 2 |x|) (-1022)

/-- IEEE 754 binary64 rounding (to nearest, ties to even) of a real value below the
overflow threshold: the nearest multiple of `2 ^ (e - 52)`, `e` the exponent of the
binade. Every float64 operation below is the exact operation followed by this. -/
def roundFloat64 (x : ℚ) : ℚ :=
  roundEven (x / 2 ^ (float64Exp x - 52)) * 2 ^ (float64Exp x - 52)

/-- Go's `Duration.Minutes`: `float64(d / Minute) + float64(d % Minute) / (60 * 1e9)`. -/
def durationMinutes (d : Int) : ℚ :=
  roundFloat64
    (roundFloat64 (d.tdiv Minute) + roundFloat64 (roundFloat64 (d.tmod Minute) / 60000000000))

/-- Go's `Duration.Seconds`: `float64(d / Second) + float64(d % Second) / 1e9`. -/
def durationSeconds (d : Int) : ℚ :=
  roundFloat64
    (roundFloat64 (d.tdiv Second) + roundFloat64 (roundFloat64 (d.tmod Second) / 1000000000))

/-- Go's conversion `int(x)` of a float64 that an int can hold: truncation toward
zero. -/
def floatToInt (x : ℚ) : Int := if 0 ≤ x then ⌊x⌋ else ⌈x⌉

/-- Go's `time.Since(t)` when the clock reads `now`: the difference as a
`time.Duration`, saturating at the int64 bounds. -/
def since (now t : Int) : Int := max (-(2 ^ 63)) (min (2 ^ 63 - 1) (now - t))

/-- Lines 286-288 of `handleMessage`: `tCheck` is the clock reading inside
`time.Since` on line 286 and `tSet` the reading of `time.Now()` on line 287. -/
def refreshInteractionTime (cfg : Config) (tCheck tSet : Int) (s : Session) : Session :=
  if durationMinutes (since tCheck s.interactionTime)
      ≥ roundFloat64 cfg.historyTimeoutMinutes then
    { s with interactionTime := tSet }
  else s

/-- Line 290 of `handleMessage`: `remainingTime`, with `tReport` the clock reading
inside `time.Since`. -/
def remainingTime (cfg : Config) (tReport : Int) (s : Session) : Int :=
  wrapInt64 (wrapInt64 (cfg.historyTimeoutMinutes * 60)
    - floatToInt (durationSeconds (since tReport s.interactionTime)))

/-- What lines 286-293 of `handleMessage` leave: the session and the two numbers
`remainingMinutes` and `remainingSeconds`. -/
structure WindowReport where
  session : Session
  remainingMinutes : Int
  remainingSeconds : Int
deriving DecidableEq

/-- Lines 286-293 of `handleMessage`. -/
def windowAccounting (cfg : Config) (tCheck tSet tReport : Int) (s : Session) :
    WindowReport :=
  let s1 := refreshInteractionTime cfg tCheck tSet s
  { session := s1
    remainingMinutes := (remainingTime cfg tReport s1).tdiv 60
    remainingSeconds := (remainingTime cfg tReport s1).tmod 60 }

/-! ## Pruning -/

theorem pruneLoop_eq (c : Int) (history acc : List Message) :
    history.foldl
      (fun newHistory msg => if msg.time > c then newHistory ++ [msg] else newHistory) acc
      = acc ++ history.filter (fun msg => decide (msg.time > c)) := by
  induction history generalizing acc with
  | nil => simp
  | cons m rest ih =>
    by_cases h : m.time > c
    · simp [List.foldl_cons, h, ih]
    · simp [List.foldl_cons, h, ih]

theorem pruneHistory_eq_filter (cfg : Config) (now : Int) (history : List Message) :
    pruneHistory cfg now history
      = history.filter (fun msg => decide (msg.time > cutoffTime cfg now)) := by
  unfold pruneHistory
  rw [pruneLoop_eq]
  simp

theorem negWindow_ge (cfg : Config)
    (h : -(2 ^ 63) ≤ cfg.historyTimeoutMinutes * Minute) :
    -(cfg.historyTimeoutMinutes * Minute) ≤ negWindow cfg := by
  unfold negWindow wrapInt64 Minute at *
  norm_num at *
  omega

theorem negWindow_le (cfg : Config)
    (h : cfg.historyTimeoutMinutes * Minute < 2 ^ 63) :
    negWindow cfg ≤ -(cfg.historyTimeoutMinutes * Minute) := by
  unfold negWindow wrapInt64 Minute at *
  norm_num at *
  omega

/-- C2 (window pruning, retained bound): every message that the pruning loop of
`handleMessage` keeps is at most the window old, `now - timestamp <= W`, for every
history, every instant and every window `W` of `historyTimeoutMinutes` minutes that is
not below the least `time.Duration` (so for every window `W >= 0`). -/
theorem C2_pruned_within_window (cfg : Config) (now : Int) (history : List Message)
    (msg : Message) (hW : -(2 ^ 63) ≤ cfg.historyTimeoutMinutes * Minute)
    (hmem : msg ∈ pruneHistory cfg now history) :
    now - msg.time ≤ cfg.historyTimeoutMinutes * Minute := by
  rw [pruneHistory_eq_filter] at hmem
  have hk := (List.mem_filter.mp hmem).2
  have hlt : msg.time > cutoffTime cfg now := by simpa using hk
  have hge := negWindow_ge cfg hW
  unfold cutoffTime at hlt
  omega

theorem C2_pruned_within_window_witness :
    -(2 ^ 63) ≤ (⟨"", 2, 1⟩ : Config).historyTimeoutMinutes * Minute ∧
      (⟨"user", "new", 90000000000⟩ : Message) ∈
        pruneHistory ⟨"", 2, 1⟩ 120000000000
          [⟨"user", "old", 0⟩, ⟨"user", "new", 90000000000⟩] ∧
      (120000000000 : Int) - (⟨"user", "new", 90000000000⟩ : Message).time
        ≤ (⟨"", 2, 1⟩ : Config).historyTimeoutMinutes * Minute :=
  ⟨by decide, by decide,
    C2_pruned_within_window ⟨"", 2, 1⟩ 120000000000
      [⟨"user", "old", 0⟩, ⟨"user", "new", 90000000000⟩] ⟨"user", "new", 90000000000⟩
      (by decide) (by decide)⟩

/-- C3 as stated fails: with a window of one minute, a message stamped exactly
`now - W` satisfies `now - timestamp <= W`, yet the pruning loop drops it. -/
theorem C3_boundary_message_dropped :
    (⟨"user", "edge", 0⟩ : Message) ∈ [(⟨"user", "edge", 0⟩ : Message)] ∧
      (60000000000 : Int) - (⟨"user", "edge", 0⟩ : Message).time
        ≤ (⟨"", 2, 1⟩ : Config).historyTimeoutMinutes * Minute ∧
      (⟨"user", "edge", 0⟩ : Message) ∉
        pruneHistory ⟨"", 2, 1⟩ 60000000000 [⟨"user", "edge", 0⟩] := by
  decide

/-- C3 amended (window pruning, no false eviction): for every history, instant and
window `W` of `historyTimeoutMinutes` minutes that a `time.Duration` can hold, the
pruning loop of `handleMessage` keeps exactly the messages with
`now - timestamp < W`, in their order in the history: every message strictly younger
than the window is still present, and the result is a sublist of the history. -/
theorem C3_strictly_younger_kept (cfg : Config) (now : Int) (history : List Message)
    (hW : fitsInt64 (cfg.historyTimeoutMinutes * Minute)) :
    pruneHistory cfg now history
        = history.filter
            (fun msg => decide (now - msg.time < cfg.historyTimeoutMinutes * Minute)) ∧
      (∀ msg ∈ history, now - msg.time < cfg.historyTimeoutMinutes * Minute →
        msg ∈ pruneHistory cfg now history) ∧
      (pruneHistory cfg now history).Sublist history := by
  have hge := negWindow_ge cfg hW.1
  have hle := negWindow_le cfg hW.2
  have hiff : ∀ msg : Message,
      msg.time > cutoffTime cfg now
        ↔ now - msg.time < cfg.historyTimeoutMinutes * Minute := by
    intro msg
    unfold cutoffTime
    constructor <;> intro h <;> omega
  have hfun : (fun msg : Message => decide (msg.time > cutoffTime cfg now))
      = (fun msg => decide (now - msg.time < cfg.historyTimeoutMinutes * Minute)) := by
    funext msg
    simp only [hiff msg]
  refine ⟨?_, ?_, ?_⟩
  · rw [pruneHistory_eq_filter, hfun]
  · intro msg hmem hlt
    rw [pruneHistory_eq_filter, hfun]
    exact List.mem_filter.mpr ⟨hmem, by simpa using hlt⟩
  · rw [pruneHistory_eq_filter]
    exact List.filter_sublist _

theorem C3_strictly_younger_kept_witness :
    fitsInt64 ((⟨"", 2, 1⟩ : Config).historyTimeoutMinutes * Minute) ∧
      pruneHistory ⟨"", 2, 1⟩ 60000000000 [⟨"user", "edge", 0⟩, ⟨"user", "in", 1⟩]
        = [(⟨"user", "edge", 0⟩ : Message), ⟨"user", "in", 1⟩].filter
            (fun msg => decide
              ((60000000000 : Int) - msg.time
                < (⟨"", 2, 1⟩ : Config).historyTimeoutMinutes * Minute)) :=
  ⟨by decide,
    (C3_strictly_younger_kept ⟨"", 2, 1⟩ 60000000000
      [⟨"user", "edge", 0⟩, ⟨"user", "in", 1⟩] (by decide)).1⟩

/-! ## Retry policy -/

/-- C4 (retry bound): over an arbitrary completion function `call`, the retry loop
of `callOpenAIWithRetry` with `maxRetries = 3`: when the three attempts fail it has made
exactly three calls and returns empty text, zero token counts, `isAPITokenCount = false`
and an error that wraps the error of the third attempt; when one of the three attempts
succeeds it returns that attempt's values and has made no call after it. -/
theorem C4_retry_bound (call : Nat → List Message → Session → CallResult × Session)
    (history : List Message) (s : Session) :
    maxRetries = 3 ∧
    (∀ e0 e1 e2 : String,
      (call 0 history s).1.err = some e0 →
      (call 1 history (call 0 history s).2).1.err = some e1 →
      (call 2 history (call 1 history (call 0 history s).2).2).1.err = some e2 →
      retryWith call history s
        = ⟨⟨"", 0, 0, false, some ("All attempts failed. Last error: " ++ e2)⟩,
            (call 2 history (call 1 history (call 0 history s).2).2).2, 3⟩) ∧
    ((call 0 history s).1.err = none →
      retryWith call history s = ⟨(call 0 history s).1, (call 0 history s).2, 1⟩) ∧
    (∀ e0 : String,
      (call 0 history s).1.err = some e0 →
      (call 1 history (call 0 history s).2).1.err = none →
      retryWith call history s
        = ⟨(call 1 history (call 0 history s).2).1,
            (call 1 history (call 0 history s).2).2, 2⟩) ∧
    (∀ e0 e1 : String,
      (call 0 history s).1.err = some e0 →
      (call 1 history (call 0 history s).2).1.err = some e1 →
      (call 2 history (call 1 history (call 0 history s).2).2).1.err = none →
      retryWith call history s
        = ⟨(call 2 history (call 1 history (call 0 history s).2).2).1,
            (call 2 history (call 1 history (call 0 history s).2).2).2, 3⟩) := by
  refine ⟨rfl, ?_, ?_, ?_, ?_⟩
  · intro e0 e1 e2 h0 h1 h2
    simp [retryWith, maxRetries, retryLoop, h0, h1, h2, showErr]
  · intro h0
    simp only [retryWith, maxRetries, retryLoop, h0]
    rw [← h0]
  · intro e0 h0 h1
    simp only [retryWith, maxRetries, retryLoop, h0, h1]
    rw [← h1]
  · intro e0 e1 h0 h1 h2
    simp only [retryWith, maxRetries, retryLoop, h0, h1, h2]
    rw [← h2]

theorem C4_retry_bound_witness :
    retryWith (fun _ => callOpenAI ⟨.requestFailed, 0⟩) [] ⟨[], 2, 0⟩
        = ⟨⟨"", 0, 0, false,
              some ("All attempts failed. Last error: " ++ "Error processing request")⟩,
            ⟨[], 2, 0⟩, 3⟩ ∧
      retryWith
          (fun i => callOpenAI
            (if i = 0 then ⟨.undecodable, 0⟩ else ⟨.decoded ⟨["ok"], some ⟨3, 1, 4⟩⟩, 9⟩))
          [] ⟨[], 2, 0⟩
        = ⟨⟨"ok", 3, 1, true, none⟩, ⟨[⟨"assistant", "ok", 9⟩], 2, 0⟩, 2⟩ :=
  ⟨(C4_retry_bound (fun _ => callOpenAI ⟨.requestFailed, 0⟩) [] ⟨[], 2, 0⟩).2.1
      "Error processing request" "Error processing request" "Error processing request"
      rfl rfl rfl,
    (C4_retry_bound
      (fun i => callOpenAI
        (if i = 0 then ⟨.undecodable, 0⟩ else ⟨.decoded ⟨["ok"], some ⟨3, 1, 4⟩⟩, 9⟩))
      [] ⟨[], 2, 0⟩).2.2.2.1 "Error processing response" rfl rfl⟩

/-! ## Token provenance -/

/-- C5 as stated fails: a decoded response with one choice and a usage block whose
`prompt_tokens` is 0 does not give `isAPITokenCount = true` with the reported counts;
`callOpenAI` returns the estimates 2 and 1 and `isAPITokenCount = false`. -/
theorem C5_zero_usage_is_estimated :
    (callOpenAI ⟨.decoded ⟨["ok"], some ⟨0, 7, 7⟩⟩, 100⟩ [⟨"user", "hello", 0⟩]
        ⟨[⟨"user", "hello", 0⟩], 1, 0⟩).1
      = ⟨"ok", 2, 1, false, none⟩ := by
  decide

/-- C5 amended (token provenance): for every decoded completion response with at
least one choice, `callOpenAI` returns the first choice with a nil error and
* `isAPITokenCount = true` with `inputTokens = usage.prompt_tokens` and
  `outputTokens = usage.completion_tokens` when the response carries a usage block whose
  two counters are both greater than 0;
* `isAPITokenCount = false` with `inputTokens = calculateTokens(history)` and
  `outputTokens = calculateTokens(reply text)` when it carries a usage block with a
  counter that is 0 or less, or no usage block. -/
theorem C5_token_provenance (a : Attempt) (history : List Message) (s : Session)
    (resp : OpenAIResponse) (response : String) (rest : List String)
    (hx : a.exchange = .decoded resp) (hc : resp.choices = response :: rest) :
    (∀ u : Usage, resp.usage = some u → 0 < u.promptTokens → 0 < u.completionTokens →
      (callOpenAI a history s).1
        = ⟨response, u.promptTokens, u.completionTokens, true, none⟩) ∧
    (∀ u : Usage, resp.usage = some u → (u.promptTokens ≤ 0 ∨ u.completionTokens ≤ 0) →
      (callOpenAI a history s).1
        = ⟨response, calculateTokens (.messages history),
            calculateTokens (.text response), false, none⟩) ∧
    (resp.usage = none →
      (callOpenAI a history s).1
        = ⟨response, calculateTokens (.messages history),
            calculateTokens (.text response), false, none⟩) := by
  refine ⟨?_, ?_, ?_⟩
  · intro u hu hp hcpl
    simp [callOpenAI, hx, hc, hu, hp, hcpl]
  · intro u hu hle
    have hn : ¬ (u.promptTokens > 0 ∧ u.completionTokens > 0) := by
      intro h
      rcases hle with h1 | h1 <;> omega
    simp only [callOpenAI, hx, hc, hu, hn, if_false]
  · intro hu
    simp [callOpenAI, hx, hc, hu]

theorem C5_token_provenance_witness :
    (callOpenAI ⟨.decoded ⟨["ok"], some ⟨11, 7, 18⟩⟩, 100⟩ [⟨"user", "hello", 0⟩]
          ⟨[⟨"user", "hello", 0⟩], 1, 0⟩).1
        = ⟨"ok", 11, 7, true, none⟩ ∧
      (callOpenAI ⟨.decoded ⟨["ok"], none⟩, 100⟩ [⟨"user", "hello", 0⟩]
          ⟨[⟨"user", "hello", 0⟩], 1, 0⟩).1
        = ⟨"ok", calculateTokens (.messages [⟨"user", "hello", 0⟩]),
            calculateTokens (.text "ok"), false, none⟩ :=
  ⟨(C5_token_provenance ⟨.decoded ⟨["ok"], some ⟨11, 7, 18⟩⟩, 100⟩ [⟨"user", "hello", 0⟩]
      ⟨[⟨"user", "hello", 0⟩], 1, 0⟩ ⟨["ok"], some ⟨11, 7, 18⟩⟩ "ok" [] rfl rfl).1
      ⟨11, 7, 18⟩ rfl (by decide) (by decide),
    (C5_token_provenance ⟨.decoded ⟨["ok"], none⟩, 100⟩ [⟨"user", "hello", 0⟩]
      ⟨[⟨"user", "hello", 0⟩], 1, 0⟩ ⟨["ok"], none⟩ "ok" [] rfl rfl).2.2 rfl⟩

/-! ## Token estimator -/

theorem fieldsFinish_foldl (s : List Char) (acc : List (List Char))
    (cur : Option (List Char)) :
    fieldsFinish (s.foldl fieldsStep ⟨acc, cur⟩)
      = acc ++ fieldsFinish (s.foldl fieldsStep ⟨[], cur⟩) := by
  induction s generalizing acc cur with
  | nil => cases cur <;> simp [fieldsFinish]
  | cons c rest ih =>
    by_cases hc : isSpace c = true
    · cases cur with
      | none => simpa [List.foldl_cons, fieldsStep, hc] using ih acc none
      | some w =>
        simp only [List.foldl_cons, fieldsStep, hc, if_true]
        rw [ih (acc ++ [w]) none, ih ([] ++ [w]) none]
        simp
    · cases cur with
      | none => simpa [List.foldl_cons, fieldsStep, hc] using ih acc (some [c])
      | some w => simpa [List.foldl_cons, fieldsStep, hc] using ih acc (some (w ++ [c]))

theorem fields_open_eq (s : List Char) :
    (fieldsFinish (s.foldl fieldsStep ⟨[], none⟩)
        = (s.splitOnP isSpace).filter (fun w => !w.isEmpty)) ∧
      (∀ w : List Char, w ≠ [] →
        fieldsFinish (s.foldl fieldsStep ⟨[], some w⟩)
          = ((s.splitOnP isSpace).modifyHead (fun v => w ++ v)).filter
              (fun w => !w.isEmpty)) := by
  induction s with
  | nil =>
    refine ⟨by simp [fieldsFinish, List.splitOnP_nil], ?_⟩
    intro w hw
    cases w with
    | nil => exact absurd rfl hw
    | cons a t => simp [fieldsFinish, List.splitOnP_nil]
  | cons c rest ih =>
    obtain ⟨ih0, ih1⟩ := ih
    by_cases hc : isSpace c = true
    · refine ⟨?_, ?_⟩
      · simp only [List.foldl_cons, fieldsStep, hc, if_true, List.splitOnP_cons]
        rw [ih0]
        simp
      · intro w hw
        simp only [List.foldl_cons, fieldsStep, hc, if_true, List.splitOnP_cons]
        rw [fieldsFinish_foldl, ih0]
        cases w with
        | nil => exact absurd rfl hw
        | cons a t => simp
    · refine ⟨?_, ?_⟩
      · simp only [List.foldl_cons, fieldsStep, hc, List.splitOnP_cons, Bool.false_eq_true,
          if_false]
        rw [ih1 [c] (by simp)]
        rfl
      · intro w hw
        simp only [List.foldl_cons, fieldsStep, hc, List.splitOnP_cons, Bool.false_eq_true,
          if_false]
        rw [ih1 (w ++ [c]) (by simp)]
        simp [List.modifyHead_modifyHead, Function.comp_def]

theorem fields_eq_splitOnP (s : List Char) :
    fields s = (s.splitOnP isSpace).filter (fun w => !w.isEmpty) :=
  (fields_open_eq s).1

theorem ceil_quarter (n : Nat) : ((n : Int) + 3) / 4 = (Nat.ceil ((n : ℚ) / 4) : Int) := by
  have hk : Nat.ceil ((n : ℚ) / 4) = (n + 3) / 4 := by
    apply le_antisymm
    · rw [Nat.ceil_le, div_le_iff₀ (by norm_num)]
      have : n ≤ (n + 3) / 4 * 4 := by omega
      exact_mod_cast this
    · by_cases h0 : (n + 3) / 4 = 0
      · omega
      · have hlt : (n + 3) / 4 - 1 < Nat.ceil ((n : ℚ) / 4) := by
          rw [Nat.lt_ceil, lt_div_iff₀ (by norm_num)]
          have : ((n + 3) / 4 - 1) * 4 < n := by omega
          exact_mod_cast this
        omega
  rw [hk]
  omega

theorem tokens_foldl_eq (l : List (List Char)) (acc : Int) :
    l.foldl (fun tokens word => tokens + ((byteLen word : Int) + 3) / 4) acc
      = acc + (l.map (fun w => (Nat.ceil ((byteLen w : ℚ) / 4) : Int))).sum := by
  induction l generalizing acc with
  | nil => simp
  | cons w rest ih =>
    simp only [List.foldl_cons, List.map_cons, List.sum_cons]
    rw [ih, ceil_quarter]
    ring

theorem fields_all_space (s : List Char) (h : ∀ c ∈ s, isSpace c = true) :
    fields s = [] := by
  have key : s.foldl fieldsStep ⟨[], none⟩ = ⟨[], none⟩ := by
    induction s with
    | nil => rfl
    | cons c rest ih =>
      have hc : isSpace c = true := h c (by simp)
      simp only [List.foldl_cons, fieldsStep, hc, if_true]
      exact ih (fun d hd => h d (List.mem_cons_of_mem _ hd))
  simp [fields, key, fieldsFinish]

/-- C6 (estimator formula): for every text, `calculateTokens(text)` is the sum over
the maximal whitespace-free words of the text of `ceil(len(word) / 4)`, `len` being the
UTF-8 byte count; `calculateTokens("abcd efgh") = 2`, `calculateTokens("abcdefgh") = 2`,
and the empty text and every all-whitespace text give 0. -/
theorem C6_estimator_formula :
    (∀ text : String, calculateTokens (.text text) = specEstimate text) ∧
      calculateTokens (.text "abcd efgh") = 2 ∧
      calculateTokens (.text "abcdefgh") = 2 ∧
      calculateTokens (.text "") = 0 ∧
      (∀ text : String, (∀ c ∈ text.toList, isSpace c = true) →
        calculateTokens (.text text) = 0) := by
  refine ⟨?_, by decide, by decide, by decide, ?_⟩
  · intro text
    unfold calculateTokens specEstimate
    rw [tokens_foldl_eq, fields_eq_splitOnP]
    simp [tokenText]
  · intro text h
    unfold calculateTokens
    simp only [tokenText]
    rw [fields_all_space _ h]
    rfl

theorem C6_estimator_formula_witness : calculateTokens (.text " \t\n ") = 0 :=
  C6_estimator_formula.2.2.2.2 " \t\n " (by decide)

/-! ## Session engine -/

theorem callOpenAI_rounds (a : Attempt) (history : List Message) (s : Session) :
    (callOpenAI a history s).2.remainingRounds = s.remainingRounds := by
  unfold callOpenAI
  repeat (first | rfl | split)

theorem callOpenAI_failed_session (a : Attempt) (history : List Message) (s : Session)
    (h : (callOpenAI a history s).1.err ≠ none) : (callOpenAI a history s).2 = s := by
  unfold callOpenAI at h ⊢
  repeat (first | rfl | (exfalso; exact h rfl) | split at h)

theorem retryLoop_rounds (up : Nat → Attempt) (history : List Message) (n i : Nat)
    (lastErr : Option String) (s : Session) :
    (retryLoop (fun k => callOpenAI (up k)) history n i lastErr s).session.remainingRounds
      = s.remainingRounds := by
  induction n generalizing i lastErr s with
  | zero => rfl
  | succ n ih =>
    simp only [retryLoop]
    split
    · exact callOpenAI_rounds _ _ _
    · rw [ih]
      exact callOpenAI_rounds _ _ _

theorem retryLoop_failed_session (up : Nat → Attempt) (history : List Message) (n i : Nat)
    (lastErr : Option String) (s : Session)
    (h : (retryLoop (fun k => callOpenAI (up k)) history n i lastErr s).result.err ≠ none) :
    (retryLoop (fun k => callOpenAI (up k)) history n i lastErr s).session = s := by
  induction n generalizing i lastErr s with
  | zero => rfl
  | succ n ih =>
    simp only [retryLoop] at h ⊢
    split at h
    · exact absurd rfl h
    · rename_i e he
      have hs : (callOpenAI (up i) history s).2 = s :=
        callOpenAI_failed_session _ _ _ (by rw [he]; simp)
      rw [ih _ _ _ h, hs]

theorem handleMessage_rounds (cfg : Config) (up : Nat → Attempt) (text : String)
    (now : Int) (s : Session) :
    (handleMessage cfg up text now s).session.remainingRounds
      = if s.remainingRounds > 0 then s.remainingRounds - 1 else cfg.historyLength := by
  unfold handleMessage callOpenAIWithRetry retryWith
  rw [retryLoop_rounds]
  unfold preCall roundCheck pruneAndAppend
  by_cases h : s.remainingRounds > 0 <;> simp [h]

/-- A turn that ends in terminal failure leaves the session exactly as it was when
the call was made: nothing is rolled back and nothing is appended. -/
theorem handleMessage_failed_session (cfg : Config) (up : Nat → Attempt) (text : String)
    (now : Int) (s : Session)
    (h : (handleMessage cfg up text now s).result.err ≠ none) :
    (handleMessage cfg up text now s).session = preCall cfg text now s := by
  unfold handleMessage callOpenAIWithRetry retryWith at h ⊢
  exact retryLoop_failed_session _ _ _ _ _ _ h

/-- The history that reaches the call when the counter was 0 before the turn is the
seed alone. -/
theorem preCall_exhausted (cfg : Config) (text : String) (now : Int) (s : Session)
    (h : s.remainingRounds ≤ 0) :
    (preCall cfg text now s).conversationHistory = seed cfg now := by
  unfold preCall roundCheck pruneAndAppend
  have : ¬ s.remainingRounds > 0 := by omega
  simp [this]

theorem runTurns_exhausts (cfg : Config) (ts : List Turn) (s : Session)
    (h : s.remainingRounds = ts.length) : (runTurns cfg s ts).remainingRounds = 0 := by
  induction ts generalizing s with
  | nil => simpa [runTurns] using h
  | cons t rest ih =>
    simp only [runTurns]
    apply ih
    rw [handleMessage_rounds]
    simp only [List.length_cons] at h
    have : s.remainingRounds > 0 := by omega
    simp only [this, if_true]
    push_cast at h
    omega

/-- After `historyLength` turns from the initial session, the next turn calls the
completion function with the seed alone; the new user message is not part of it. -/
theorem reset_turn_history (cfg : Config) (startTime seedTime : Int) (ts : List Turn)
    (t : Turn) (h : cfg.historyLength = ts.length) :
    (preCall cfg t.text t.now
        (runTurns cfg (initSession cfg startTime seedTime) ts)).conversationHistory
      = seed cfg t.now := by
  apply preCall_exhausted
  rw [runTurns_exhausts cfg ts _ (by simpa [initSession] using h)]

/-- C1 (round reset), the code at a failing input: `historyLength = 1`, system prompt
`S`, a fresh session, one answered turn, then the second turn `again`. The history that
reaches the completion call on the second turn is the system-prompt message alone: the
user message of that turn, appended on line 258, has been cleared on line 264. -/
theorem C1_reset_turn_drops_user_message :
    (preCall ⟨"S", 1, 60⟩ "again" 2000000000
        (runTurns ⟨"S", 1, 60⟩ (initSession ⟨"S", 1, 60⟩ 0 0)
          [⟨"hi", 1000000000, fun _ => ⟨.decoded ⟨["hello"], none⟩, 1500000000⟩⟩])
      ).conversationHistory = [⟨"system", "S", 2000000000⟩] ∧
    (⟨"user", "again", 2000000000⟩ : Message) ∉
      (preCall ⟨"S", 1, 60⟩ "again" 2000000000
        (runTurns ⟨"S", 1, 60⟩ (initSession ⟨"S", 1, 60⟩ 0 0)
          [⟨"hi", 1000000000, fun _ => ⟨.decoded ⟨["hello"], none⟩, 1500000000⟩⟩])
      ).conversationHistory := by
  decide

/-- C7 (decrement-or-reset rule): when `remainingRounds = 0` the round check of
`handleMessage` leaves the history equal to the system-prompt message stamped at the
turn's `now` (empty when no system prompt is configured) and sets
`remainingRounds = historyLength`; when `remainingRounds > 0` it subtracts exactly one and
leaves the history as it is. With `historyLength = 2` and a fresh session the counter
after turns 1, 2, 3 is 1, 0, 2, whatever the turns and their outcomes are. -/
theorem C7_decrement_or_reset :
    (∀ (cfg : Config) (now : Int) (s : Session), s.remainingRounds = 0 →
      roundCheck cfg now s
        = ⟨if cfg.systemPrompt ≠ "" then [⟨"system", cfg.systemPrompt, now⟩] else [],
            cfg.historyLength, s.interactionTime⟩) ∧
    (∀ (cfg : Config) (now : Int) (s : Session), 0 < s.remainingRounds →
      roundCheck cfg now s
        = ⟨s.conversationHistory, s.remainingRounds - 1, s.interactionTime⟩) ∧
    (∀ (cfg : Config) (startTime seedTime : Int) (t1 t2 t3 : Turn),
      cfg.historyLength = 2 →
      (runTurns cfg (initSession cfg startTime seedTime) [t1]).remainingRounds = 1 ∧
      (runTurns cfg (initSession cfg startTime seedTime) [t1, t2]).remainingRounds = 0 ∧
      (runTurns cfg (initSession cfg startTime seedTime) [t1, t2, t3]).remainingRounds
        = 2) := by
  refine ⟨?_, ?_, ?_⟩
  · intro cfg now s h
    simp [roundCheck, h, seed]
  · intro cfg now s h
    simp [roundCheck, h]
  · intro cfg startTime seedTime t1 t2 t3 h
    simp [runTurns, handleMessage_rounds, initSession, h]

theorem C7_decrement_or_reset_witness :
    roundCheck ⟨"S", 2, 60⟩ 7 ⟨[⟨"user", "hi", 5⟩], 0, 0⟩
        = ⟨[⟨"system", "S", 7⟩], 2, 0⟩ ∧
      roundCheck ⟨"S", 2, 60⟩ 7 ⟨[⟨"user", "hi", 5⟩], 2, 0⟩
        = ⟨[⟨"user", "hi", 5⟩], 1, 0⟩ ∧
      (runTurns ⟨"S", 2, 60⟩ (initSession ⟨"S", 2, 60⟩ 0 0)
          [⟨"hi", 1, fun _ => ⟨.requestFailed, 0⟩⟩,
            ⟨"there", 2, fun _ => ⟨.decoded ⟨["ok"], none⟩, 3⟩⟩,
            ⟨"again", 4, fun _ => ⟨.requestFailed, 0⟩⟩]).remainingRounds = 2 :=
  ⟨C7_decrement_or_reset.1 ⟨"S", 2, 60⟩ 7 ⟨[⟨"user", "hi", 5⟩], 0, 0⟩ rfl,
    C7_decrement_or_reset.2.1 ⟨"S", 2, 60⟩ 7 ⟨[⟨"user", "hi", 5⟩], 2, 0⟩ (by decide),
    (C7_decrement_or_reset.2.2 ⟨"S", 2, 60⟩ 0 0
      ⟨"hi", 1, fun _ => ⟨.requestFailed, 0⟩⟩
      ⟨"there", 2, fun _ => ⟨.decoded ⟨["ok"], none⟩, 3⟩⟩
      ⟨"again", 4, fun _ => ⟨.requestFailed, 0⟩⟩ rfl).2.2⟩

/-- C8 (round-counter invariant): when the configured `historyLength` is at least 0,
`0 <= remainingRounds <= historyLength` holds in the session set up by `main` and is
preserved by a user turn (`handleMessage`, whatever the completion attempts return) and
by `clearConversationHistory`. -/
theorem C8_rounds_invariant (cfg : Config) (hN : 0 ≤ cfg.historyLength) :
    (∀ startTime seedTime : Int, roundsInRange cfg (initSession cfg startTime seedTime)) ∧
    (∀ (s : Session) (up : Nat → Attempt) (text : String) (now : Int),
      roundsInRange cfg s → roundsInRange cfg (handleMessage cfg up text now s).session) ∧
    (∀ (s : Session) (t : Int),
      roundsInRange cfg s → roundsInRange cfg (clearConversationHistory cfg t s)) := by
  refine ⟨?_, ?_, ?_⟩
  · intro startTime seedTime
    exact ⟨hN, le_refl _⟩
  · intro s up text now h
    unfold roundsInRange at h ⊢
    rw [handleMessage_rounds]
    by_cases hpos : s.remainingRounds > 0
    · simp only [hpos, if_true]
      omega
    · simp only [hpos, if_false]
      omega
  · intro s t _
    exact ⟨hN, le_refl _⟩

theorem C8_rounds_invariant_witness :
    (0 : Int) ≤ (⟨"S", 2, 60⟩ : Config).historyLength ∧
      roundsInRange ⟨"S", 2, 60⟩ (initSession ⟨"S", 2, 60⟩ 0 0) ∧
      roundsInRange ⟨"S", 2, 60⟩
        (handleMessage ⟨"S", 2, 60⟩ (fun _ => ⟨.requestFailed, 0⟩) "hi" 5
          ⟨[], 0, 0⟩).session ∧
      roundsInRange ⟨"S", 2, 60⟩
        (clearConversationHistory ⟨"S", 2, 60⟩ 9 ⟨[⟨"user", "hi", 5⟩], 1, 0⟩) :=
  ⟨by decide,
    (C8_rounds_invariant ⟨"S", 2, 60⟩ (by decide)).1 0 0,
    (C8_rounds_invariant ⟨"S", 2, 60⟩ (by decide)).2.1 ⟨[], 0, 0⟩
      (fun _ => ⟨.requestFailed, 0⟩) "hi" 5 ⟨by decide, by decide⟩,
    (C8_rounds_invariant ⟨"S", 2, 60⟩ (by decide)).2.2 ⟨[⟨"user", "hi", 5⟩], 1, 0⟩ 9
      ⟨by decide, by decide⟩⟩

/-- C9 (clear idempotence): from every session, `clearConversationHistory` at instant
`t` yields the history `[system-prompt message stamped t]` when the system prompt is
non-empty and the empty history otherwise, with `remainingRounds = historyLength` (and
`interactionTime = t`); the result is the same from any two sessions, and clearing twice at
the same instant gives the same session as clearing once. -/
theorem C9_clear_idempotent (cfg : Config) (t : Int) (s s2 : Session) :
    clearConversationHistory cfg t s
        = ⟨if cfg.systemPrompt ≠ "" then [⟨"system", cfg.systemPrompt, t⟩] else [],
            cfg.historyLength, t⟩ ∧
      clearConversationHistory cfg t s = clearConversationHistory cfg t s2 ∧
      clearConversationHistory cfg t (clearConversationHistory cfg t s)
        = clearConversationHistory cfg t s :=
  ⟨rfl, rfl, rfl⟩

/-- C10 (no rollback on failure), the code at a failing input: `historyLength = 1`,
system prompt `S`, a session whose counter is 0, and a turn `again` whose three attempts
all fail. The turn ends in the terminal error, the counter is the value of the round
check, and the history after the turn is the system-prompt message alone: it does not
contain the user message of the turn. -/
theorem C10_failed_reset_turn_loses_user_message :
    (handleMessage ⟨"S", 1, 60⟩ (fun _ => ⟨.requestFailed, 0⟩) "again" 2000000000
        ⟨[⟨"system", "S", 0⟩, ⟨"user", "hi", 1000000000⟩], 0, 0⟩).result.err
      = some "All attempts failed. Last error: Error processing request" ∧
    (handleMessage ⟨"S", 1, 60⟩ (fun _ => ⟨.requestFailed, 0⟩) "again" 2000000000
        ⟨[⟨"system", "S", 0⟩, ⟨"user", "hi", 1000000000⟩], 0, 0⟩).session
      = ⟨[⟨"system", "S", 2000000000⟩], 1, 0⟩ ∧
    (⟨"user", "again", 2000000000⟩ : Message) ∉
      (handleMessage ⟨"S", 1, 60⟩ (fun _ => ⟨.requestFailed, 0⟩) "again" 2000000000
        ⟨[⟨"system", "S", 0⟩, ⟨"user", "hi", 1000000000⟩], 0, 0⟩
      ).session.conversationHistory := by
  decide

/-! ## Float64 rounding -/

theorem roundEven_intCast (n : Int) : roundEven (n : ℚ) = n := by
  unfold roundEven
  simp

theorem roundEven_bounds (q : ℚ) : ⌊q⌋ ≤ roundEven q ∧ roundEven q ≤ ⌊q⌋ + 1 := by
  unfold roundEven
  split_ifs <;> constructor <;> omega

theorem roundEven_mono {q r : ℚ} (h : q ≤ r) : roundEven q ≤ roundEven r := by
  have hf : ⌊q⌋ ≤ ⌊r⌋ := Int.floor_mono h
  rcases lt_or_eq_of_le hf with hlt | heq
  · have h1 := (roundEven_bounds q).2
    have h2 := (roundEven_bounds r).1
    omega
  · have hfr : q - ⌊q⌋ ≤ r - ⌊r⌋ := by rw [heq]; linarith
    unfold roundEven
    rw [heq]
    split_ifs <;> first | omega | (exfalso; linarith)

theorem roundEven_le_of_le {q : ℚ} {n : Int} (h : q ≤ n) : roundEven q ≤ n := by
  have := roundEven_mono h
  rwa [roundEven_intCast] at this

theorem le_roundEven_of_le {q : ℚ} {n : Int} (h : (n : ℚ) ≤ q) : n ≤ roundEven q := by
  have := roundEven_mono h
  rwa [roundEven_intCast] at this

theorem ulp_pos (x : ℚ) : (0 : ℚ) < 2 ^ (float64Exp x - 52) := by positivity

theorem roundFloat64_le_grid (x : ℚ) (n : Int)
    (h : x ≤ n * 2 ^ (float64Exp x - 52)) :
    roundFloat64 x ≤ n * 2 ^ (float64Exp x - 52) := by
  have hq := ulp_pos x
  have h1 : x / 2 ^ (float64Exp x - 52) ≤ n := (div_le_iff₀ hq).mpr h
  have h2 : ((roundEven (x / 2 ^ (float64Exp x - 52)) : Int) : ℚ) ≤ n := by
    exact_mod_cast roundEven_le_of_le h1
  unfold roundFloat64
  exact mul_le_mul_of_nonneg_right h2 hq.le

theorem roundFloat64_grid_le (x : ℚ) (n : Int)
    (h : (n : ℚ) * 2 ^ (float64Exp x - 52) ≤ x) :
    (n : ℚ) * 2 ^ (float64Exp x - 52) ≤ roundFloat64 x := by
  have hq := ulp_pos x
  have h1 : (n : ℚ) ≤ x / 2 ^ (float64Exp x - 52) := (le_div_iff₀ hq).mpr h
  have h2 : (n : ℚ) ≤ ((roundEven (x / 2 ^ (float64Exp x - 52)) : Int) : ℚ) := by
    exact_mod_cast le_roundEven_of_le h1
  unfold roundFloat64
  exact mul_le_mul_of_nonneg_right h2 hq.le

theorem roundFloat64_nonneg {x : ℚ} (h : 0 ≤ x) : 0 ≤ roundFloat64 x := by
  have := roundFloat64_grid_le x 0 (by simpa using h)
  simpa using this

theorem roundFloat64_nonpos {x : ℚ} (h : x ≤ 0) : roundFloat64 x ≤ 0 := by
  have := roundFloat64_le_grid x 0 (by simpa using h)
  simpa using this

theorem two_zpow_split (e : Int) (j : Nat) :
    ((2 ^ j : Int) : ℚ) * 2 ^ (e - 52) = 2 ^ (e - 52 + j) := by
  rw [zpow_add₀ (by norm_num : (2 : ℚ) ≠ 0)]
  push_cast
  rw [zpow_natCast]
  ring

theorem abs_lt_binade (x : ℚ) : |x| < 2 ^ (float64Exp x + 1) := by
  have h1 : |x| < ((2 : ℕ) : ℚ) ^ (Int.log 2 |x| + 1) := Int.lt_zpow_succ_log_self (by norm_num) _
  have h2 : ((2 : ℕ) : ℚ) ^ (Int.log 2 |x| + 1) ≤ 2 ^ (float64Exp x + 1) := by
    push_cast
    apply zpow_le_zpow_right₀ (by norm_num)
    unfold float64Exp
    have := le_max_left (Int.log 2 |x|) (-1022)
    omega
  exact lt_of_lt_of_le h1 h2

theorem binade_le_abs (x : ℚ) (hx : x ≠ 0) (he : -1022 < float64Exp x) :
    2 ^ (float64Exp x) ≤ |x| := by
  have hlog : float64Exp x = Int.log 2 |x| := by
    unfold float64Exp at he ⊢
    rcases max_cases (Int.log 2 |x|) (-1022) with ⟨h, _⟩ | ⟨h, _⟩
    · exact h
    · rw [h] at he; omega
  rw [hlog]
  have := Int.zpow_log_le_self (b := 2) (r := |x|) (by norm_num) (abs_pos.mpr hx)
  simpa using this

theorem float64Exp_mono_abs {x y : ℚ} (hx : x ≠ 0) (h : |x| ≤ |y|) :
    float64Exp x ≤ float64Exp y := by
  unfold float64Exp
  exact max_le_max (Int.log_mono_right (abs_pos.mpr hx) h) (le_refl _)

theorem roundFloat64_same_binade {x y : ℚ} (h : x ≤ y) (he : float64Exp x = float64Exp y) :
    roundFloat64 x ≤ roundFloat64 y := by
  have hq := ulp_pos y
  unfold roundFloat64
  rw [he]
  have h1 : x / 2 ^ (float64Exp y - 52) ≤ y / 2 ^ (float64Exp y - 52) :=
    div_le_div_of_nonneg_right h hq.le
  have h2 := roundEven_mono h1
  exact mul_le_mul_of_nonneg_right (by exact_mod_cast h2) hq.le

theorem roundFloat64_le_top (x : ℚ) : roundFloat64 x ≤ 2 ^ (float64Exp x + 1) := by
  have h := roundFloat64_le_grid x (2 ^ 53) (by
    rw [two_zpow_split]
    have := abs_lt_binade x
    have h2 : x ≤ |x| := le_abs_self x
    have h3 : float64Exp x - 52 + ((53 : ℕ) : Int) = float64Exp x + 1 := by omega
    rw [h3]
    linarith)
  rw [two_zpow_split] at h
  have h3 : float64Exp x - 52 + ((53 : ℕ) : Int) = float64Exp x + 1 := by omega
  rwa [h3] at h

theorem roundFloat64_bot_le (x : ℚ) : -(2 ^ (float64Exp x + 1)) ≤ roundFloat64 x := by
  have h3 : float64Exp x - 52 + ((53 : ℕ) : Int) = float64Exp x + 1 := by omega
  have key : ((-(2 ^ 53) : Int) : ℚ) * 2 ^ (float64Exp x - 52) = -(2 ^ (float64Exp x + 1)) := by
    have := two_zpow_split (float64Exp x) 53
    rw [h3] at this
    rw [← this]
    push_cast
    ring
  have h := roundFloat64_grid_le x (-(2 ^ 53)) (by
    rw [key]
    have := abs_lt_binade x
    have h2 : -|x| ≤ x := neg_abs_le x
    linarith)
  rwa [key] at h

theorem roundFloat64_ge_binade {x : ℚ} (hx : 0 < x) (he : -1022 < float64Exp x) :
    2 ^ (float64Exp x) ≤ roundFloat64 x := by
  have h3 : float64Exp x - 52 + ((52 : ℕ) : Int) = float64Exp x := by omega
  have key := two_zpow_split (float64Exp x) 52
  rw [h3] at key
  have hb := binade_le_abs x hx.ne' he
  rw [abs_of_pos hx] at hb
  have h := roundFloat64_grid_le x (2 ^ 52) (by rw [key]; exact hb)
  rwa [key] at h

theorem roundFloat64_le_neg_binade {x : ℚ} (hx : x < 0) (he : -1022 < float64Exp x) :
    roundFloat64 x ≤ -(2 ^ (float64Exp x)) := by
  have h3 : float64Exp x - 52 + ((52 : ℕ) : Int) = float64Exp x := by omega
  have key : ((-(2 ^ 52) : Int) : ℚ) * 2 ^ (float64Exp x - 52) = -(2 ^ (float64Exp x)) := by
    have := two_zpow_split (float64Exp x) 52
    rw [h3] at this
    rw [← this]
    push_cast
    ring
  have hb := binade_le_abs x hx.ne he
  rw [abs_of_neg hx] at hb
  have h := roundFloat64_le_grid x (-(2 ^ 52)) (by rw [key]; linarith)
  rwa [key] at h

theorem roundFloat64_mono {x y : ℚ} (h : x ≤ y) : roundFloat64 x ≤ roundFloat64 y := by
  rcases le_or_lt x 0 with hx0 | hx0
  · rcases le_or_lt 0 y with hy0 | hy0
    · exact le_trans (roundFloat64_nonpos hx0) (roundFloat64_nonneg hy0)
    · -- x ≤ y < 0
      have hxneg : x < 0 := lt_of_le_of_lt h hy0
      have habs : |y| ≤ |x| := by
        rw [abs_of_neg hy0, abs_of_neg hxneg]; linarith
      have hexp := float64Exp_mono_abs hy0.ne habs
      rcases lt_or_eq_of_le hexp with hlt | heq
      · have h1 := roundFloat64_le_neg_binade hxneg (by
          have : -1022 ≤ float64Exp y := le_max_right _ _
          omega)
        have h2 := roundFloat64_bot_le y
        have h3 : (2 : ℚ) ^ (float64Exp y + 1) ≤ 2 ^ (float64Exp x) :=
          zpow_le_zpow_right₀ (by norm_num) (by omega)
        linarith
      · exact roundFloat64_same_binade h heq.symm
  · -- 0 < x ≤ y
    have hy0 : 0 < y := lt_of_lt_of_le hx0 h
    have habs : |x| ≤ |y| := by
      rw [abs_of_pos hy0, abs_of_pos hx0]; exact h
    have hexp := float64Exp_mono_abs hx0.ne' habs
    rcases lt_or_eq_of_le hexp with hlt | heq
    · have h1 := roundFloat64_ge_binade hy0 (by
        have : -1022 ≤ float64Exp x := le_max_right _ _
        omega)
      have h2 := roundFloat64_le_top x
      have h3 : (2 : ℚ) ^ (float64Exp x + 1) ≤ 2 ^ (float64Exp y) :=
        zpow_le_zpow_right₀ (by norm_num) (by omega)
      linarith
    · exact roundFloat64_same_binade h heq

theorem roundFloat64_exact (m k : Int) (hm : |m| < 2 ^ 53) (hk : -1074 ≤ k) :
    roundFloat64 ((m : ℚ) * 2 ^ k) = (m : ℚ) * 2 ^ k := by
  by_cases hm0 : m = 0
  · subst hm0
    have h1 := roundFloat64_nonneg (le_refl (0 : ℚ))
    have h2 := roundFloat64_nonpos (le_refl (0 : ℚ))
    simp only [Int.cast_zero, zero_mul]
    exact le_antisymm h2 h1
  · obtain ⟨x, hx⟩ : ∃ x : ℚ, x = (m : ℚ) * 2 ^ k := ⟨_, rfl⟩
    rw [← hx]
    have hxne : x ≠ 0 := by
      rw [hx]
      exact mul_ne_zero (by exact_mod_cast hm0) (by positivity)
    have habs : |x| < ((2 : ℕ) : ℚ) ^ (53 + k) := by
      rw [hx, abs_mul, abs_of_pos (by positivity : (0 : ℚ) < 2 ^ k)]
      push_cast
      rw [zpow_add₀ (by norm_num : (2 : ℚ) ≠ 0)]
      apply mul_lt_mul_of_pos_right _ (by positivity)
      have : |(m : ℚ)| < 2 ^ (53 : ℕ) := by exact_mod_cast hm
      rw [← zpow_natCast] at this
      exact_mod_cast this
    have hlog : Int.log 2 |x| < 53 + k :=
      (Int.lt_zpow_iff_log_lt (by norm_num) (abs_pos.mpr hxne)).mp habs
    have he : float64Exp x ≤ k + 52 := by
      unfold float64Exp
      exact max_le (by omega) (by omega)
    obtain ⟨j, hj⟩ : ∃ j : ℕ, k = float64Exp x - 52 + j :=
      ⟨(k - (float64Exp x - 52)).toNat, by omega⟩
    have hsplit := two_zpow_split (float64Exp x) j
    rw [← hj] at hsplit
    have hxj : x = ((m * 2 ^ j : Int) : ℚ) * 2 ^ (float64Exp x - 52) := by
      calc x = (m : ℚ) * 2 ^ k := hx
        _ = (m : ℚ) * (((2 ^ j : Int) : ℚ) * 2 ^ (float64Exp x - 52)) := by rw [hsplit]
        _ = ((m * 2 ^ j : Int) : ℚ) * 2 ^ (float64Exp x - 52) := by push_cast; ring
    have hq := ulp_pos x
    have hdiv : x / 2 ^ (float64Exp x - 52) = ((m * 2 ^ j : Int) : ℚ) := by
      rw [div_eq_iff hq.ne']
      exact hxj
    unfold roundFloat64
    rw [hdiv, roundEven_intCast]
    exact hxj.symm

theorem roundFloat64_intCast (n : Int) (hn : |n| < 2 ^ 53) : roundFloat64 (n : ℚ) = n := by
  have := roundFloat64_exact n 0 hn (by norm_num)
  simpa using this

theorem frac_round_bounds (n c : Int) (j : Nat) (hn0 : 0 ≤ n) (hn : n < c)
    (hc : c ≤ 2 ^ j) (hj : j ≤ 52) :
    0 ≤ roundFloat64 ((n : ℚ) / c) ∧
      roundFloat64 ((n : ℚ) / c) ≤ 1 - 1 / 2 ^ j := by
  have hcpos : (0 : ℚ) < c := by exact_mod_cast (lt_of_le_of_lt hn0 hn)
  have hpow : (0 : ℚ) < 2 ^ j := by positivity
  constructor
  · apply roundFloat64_nonneg
    exact div_nonneg (by exact_mod_cast hn0) hcpos.le
  · have hrep : ((2 ^ j - 1 : Int) : ℚ) * 2 ^ (-(j : Int)) = 1 - 1 / 2 ^ j := by
      rw [zpow_neg, zpow_natCast]
      push_cast
      field_simp
    have hex := roundFloat64_exact (2 ^ j - 1) (-(j : Int)) (by
      have h1 : (1 : Int) ≤ 2 ^ j := one_le_pow₀ (by norm_num)
      have h2 : (2 : Int) ^ j ≤ 2 ^ 52 := pow_le_pow_right₀ (by norm_num) hj
      rw [abs_of_nonneg (by omega)]
      have : (2 : Int) ^ 52 < 2 ^ 53 := by norm_num
      omega) (by omega)
    rw [hrep] at hex
    rw [← hex]
    apply roundFloat64_mono
    rw [div_le_iff₀ hcpos]
    have h1 : (n : ℚ) ≤ c - 1 := by exact_mod_cast (by omega : n ≤ c - 1)
    have h2 : (c : ℚ) ≤ 2 ^ j := by exact_mod_cast hc
    have h3 : (1 - 1 / (2 : ℚ) ^ j) * c = c - c / 2 ^ j := by ring
    rw [h3]
    have h4 : (c : ℚ) / 2 ^ j ≤ 1 := (div_le_one hpow).mpr h2
    linarith

theorem durationMinutes_ge_iff (d W : Int) (hd0 : 0 ≤ d) (hd : d < 2 ^ 63)
    (hW0 : 0 ≤ W) (hW : W ≤ 131072) :
    roundFloat64 (W : ℚ) ≤ durationMinutes d ↔ W * Minute ≤ d := by
  have hM : (0 : Int) ≤ Minute := by decide
  unfold durationMinutes
  rw [Int.tdiv_eq_ediv hd0 hM, Int.tmod_eq_emod hd0 hM]
  have hn0 : 0 ≤ d % Minute := Int.emod_nonneg _ (by decide)
  have hn : d % Minute < Minute := Int.emod_lt_of_pos _ (by decide)
  have hm0 : 0 ≤ d / Minute := Int.ediv_nonneg hd0 hM
  have hdm : Minute * (d / Minute) + d % Minute = d := Int.ediv_add_emod d Minute
  unfold Minute at hn0 hn hm0 hdm ⊢
  have hRm : roundFloat64 ((d / 60000000000 : Int) : ℚ) = ((d / 60000000000 : Int) : ℚ) :=
    roundFloat64_intCast _ (by rw [abs_of_nonneg hm0]; norm_num at hd ⊢; omega)
  have hRn : roundFloat64 ((d % 60000000000 : Int) : ℚ) = ((d % 60000000000 : Int) : ℚ) :=
    roundFloat64_intCast _ (by rw [abs_of_nonneg hn0]; norm_num; omega)
  have hRW : roundFloat64 (W : ℚ) = W :=
    roundFloat64_intCast _ (by rw [abs_of_nonneg hW0]; norm_num; omega)
  have hf := frac_round_bounds (d % 60000000000) 60000000000 36 hn0 hn (by norm_num)
    (by norm_num)
  rw [hRm, hRn, hRW]
  have hcast : ((60000000000 : Int) : ℚ) = 60000000000 := by norm_cast
  rw [hcast] at hf
  obtain ⟨hf0, hf1⟩ := hf
  constructor
  · intro hge
    by_contra hlt
    have hmW : d / 60000000000 ≤ W - 1 := by omega
    have hWpos : 1 ≤ W := by omega
    have hrep : ((W * 2 ^ 36 - 1 : Int) : ℚ) * 2 ^ (-(36 : Int)) = W - 1 / 2 ^ 36 := by
      rw [zpow_neg]
      push_cast
      norm_num
      ring
    have hex := roundFloat64_exact (W * 2 ^ 36 - 1) (-36) (by
      rw [abs_of_nonneg (by omega)]
      norm_num
      omega) (by norm_num)
    rw [hrep] at hex
    have hsum : ((d / 60000000000 : Int) : ℚ)
        + roundFloat64 (((d % 60000000000 : Int) : ℚ) / 60000000000) ≤ W - 1 / 2 ^ 36 := by
      have : ((d / 60000000000 : Int) : ℚ) ≤ W - 1 := by exact_mod_cast hmW
      linarith
    have hr := roundFloat64_mono hsum
    rw [hex] at hr
    have : (0 : ℚ) < 1 / 2 ^ 36 := by positivity
    linarith
  · intro hle
    have hmW : W ≤ d / 60000000000 := by omega
    have hsum : (W : ℚ) ≤ ((d / 60000000000 : Int) : ℚ)
        + roundFloat64 (((d % 60000000000 : Int) : ℚ) / 60000000000) := by
      have : (W : ℚ) ≤ ((d / 60000000000 : Int) : ℚ) := by exact_mod_cast hmW
      linarith
    have hr := roundFloat64_mono hsum
    rwa [hRW] at hr

theorem floatToInt_durationSeconds (d : Int) (hd0 : 0 ≤ d) (hd : d < 8388608 * Second) :
    floatToInt (durationSeconds d) = d / Second := by
  have hS : (0 : Int) ≤ Second := by decide
  unfold durationSeconds
  rw [Int.tdiv_eq_ediv hd0 hS, Int.tmod_eq_emod hd0 hS]
  have hn0 : 0 ≤ d % Second := Int.emod_nonneg _ (by decide)
  have hn : d % Second < Second := Int.emod_lt_of_pos _ (by decide)
  have hm0 : 0 ≤ d / Second := Int.ediv_nonneg hd0 hS
  have hdm : Second * (d / Second) + d % Second = d := Int.ediv_add_emod d Second
  unfold Second at hn0 hn hm0 hdm hd ⊢
  have hm1 : d / 1000000000 < 8388608 := by omega
  have hRm : roundFloat64 ((d / 1000000000 : Int) : ℚ) = ((d / 1000000000 : Int) : ℚ) :=
    roundFloat64_intCast _ (by rw [abs_of_nonneg hm0]; norm_num; omega)
  have hRn : roundFloat64 ((d % 1000000000 : Int) : ℚ) = ((d % 1000000000 : Int) : ℚ) :=
    roundFloat64_intCast _ (by rw [abs_of_nonneg hn0]; norm_num; omega)
  have hf := frac_round_bounds (d % 1000000000) 1000000000 30 hn0 hn (by norm_num)
    (by norm_num)
  rw [hRm, hRn]
  have hcast : ((1000000000 : Int) : ℚ) = 1000000000 := by norm_cast
  rw [hcast] at hf
  obtain ⟨hf0, hf1⟩ := hf
  have hrep : (((d / 1000000000 + 1) * 2 ^ 30 - 1 : Int) : ℚ) * 2 ^ (-(30 : Int))
      = ((d / 1000000000 : Int) : ℚ) + 1 - 1 / 2 ^ 30 := by
    rw [zpow_neg]
    push_cast
    norm_num
    ring
  have hex := roundFloat64_exact ((d / 1000000000 + 1) * 2 ^ 30 - 1) (-30) (by
    rw [abs_of_nonneg (by omega)]
    norm_num
    omega) (by norm_num)
  rw [hrep] at hex
  have hlo : ((d / 1000000000 : Int) : ℚ)
      ≤ roundFloat64 (((d / 1000000000 : Int) : ℚ)
          + roundFloat64 (((d % 1000000000 : Int) : ℚ) / 1000000000)) := by
    have hr := roundFloat64_mono (show ((d / 1000000000 : Int) : ℚ)
      ≤ ((d / 1000000000 : Int) : ℚ)
          + roundFloat64 (((d % 1000000000 : Int) : ℚ) / 1000000000) by linarith)
    rwa [hRm] at hr
  have hhi : roundFloat64 (((d / 1000000000 : Int) : ℚ)
          + roundFloat64 (((d % 1000000000 : Int) : ℚ) / 1000000000))
      ≤ ((d / 1000000000 : Int) : ℚ) + 1 - 1 / 2 ^ 30 := by
    have hr := roundFloat64_mono (show ((d / 1000000000 : Int) : ℚ)
          + roundFloat64 (((d % 1000000000 : Int) : ℚ) / 1000000000)
      ≤ ((d / 1000000000 : Int) : ℚ) + 1 - 1 / 2 ^ 30 by linarith)
    rwa [hex] at hr
  have hnonneg : (0 : ℚ) ≤ roundFloat64 (((d / 1000000000 : Int) : ℚ)
          + roundFloat64 (((d % 1000000000 : Int) : ℚ) / 1000000000)) := by
    have : (0 : ℚ) ≤ ((d / 1000000000 : Int) : ℚ) := by exact_mod_cast hm0
    linarith
  unfold floatToInt
  rw [if_pos hnonneg, Int.floor_eq_iff]
  constructor
  · exact hlo
  · have : (0 : ℚ) < 1 / 2 ^ 30 := by positivity
    linarith

/-! ## Window anchor -/

theorem callOpenAI_interactionTime (a : Attempt) (history : List Message) (s : Session) :
    (callOpenAI a history s).2.interactionTime = s.interactionTime := by
  unfold callOpenAI
  repeat (first | rfl | split)

theorem retryLoop_interactionTime (up : Nat → Attempt) (history : List Message) (n i : Nat)
    (lastErr : Option String) (s : Session) :
    (retryLoop (fun k => callOpenAI (up k)) history n i lastErr s).session.interactionTime
      = s.interactionTime := by
  induction n generalizing i lastErr s with
  | zero => rfl
  | succ n ih =>
    simp only [retryLoop]
    split
    · exact callOpenAI_interactionTime _ _ _
    · rw [ih]
      exact callOpenAI_interactionTime _ _ _

theorem handleMessage_interactionTime (cfg : Config) (up : Nat → Attempt) (text : String)
    (now : Int) (s : Session) :
    (handleMessage cfg up text now s).session.interactionTime = s.interactionTime := by
  unfold handleMessage callOpenAIWithRetry retryWith
  rw [retryLoop_interactionTime]
  unfold preCall roundCheck pruneAndAppend
  split <;> rfl

theorem since_of_fits (now t : Int) (h0 : 0 ≤ now - t) (h1 : now - t < 2 ^ 63) :
    since now t = now - t := by
  unfold since
  omega

theorem since_nonneg (now t : Int) (h0 : 0 ≤ now - t) :
    0 ≤ since now t ∧ since now t < 2 ^ 63 ∧
      ∀ c : Int, c < 2 ^ 63 → (c ≤ since now t ↔ c ≤ now - t) := by
  unfold since
  refine ⟨by omega, by omega, ?_⟩
  intro c hc
  omega

theorem refreshInteractionTime_eq (cfg : Config) (tCheck tSet : Int) (s : Session)
    (hW0 : 0 ≤ cfg.historyTimeoutMinutes) (hW : cfg.historyTimeoutMinutes ≤ 131072)
    (hclock : s.interactionTime ≤ tCheck) :
    refreshInteractionTime cfg tCheck tSet s
      = if cfg.historyTimeoutMinutes * Minute ≤ tCheck - s.interactionTime then
          { s with interactionTime := tSet }
        else s := by
  obtain ⟨h0, h1, h2⟩ := since_nonneg tCheck s.interactionTime (by omega)
  have hiff := durationMinutes_ge_iff (since tCheck s.interactionTime)
    cfg.historyTimeoutMinutes h0 h1 hW0 hW
  have hc := h2 (cfg.historyTimeoutMinutes * Minute) (by unfold Minute; omega)
  unfold refreshInteractionTime
  by_cases hle : cfg.historyTimeoutMinutes * Minute ≤ tCheck - s.interactionTime
  · rw [if_pos hle, if_pos (hiff.mpr (hc.mpr hle))]
  · rw [if_neg hle, if_neg (fun hge => hle (hc.mp (hiff.mp hge)))]

theorem remainingTime_eq (cfg : Config) (tReport : Int) (s : Session)
    (hW0 : 0 ≤ cfg.historyTimeoutMinutes) (hW : cfg.historyTimeoutMinutes ≤ 131072)
    (h0 : s.interactionTime ≤ tReport)
    (h1 : tReport - s.interactionTime < 8388608 * Second) :
    remainingTime cfg tReport s
      = cfg.historyTimeoutMinutes * 60 - (tReport - s.interactionTime) / Second := by
  have hS : (0 : Int) < Second := by decide
  have hs : since tReport s.interactionTime = tReport - s.interactionTime :=
    since_of_fits _ _ (by omega) (by unfold Second at h1; omega)
  have hq0 : 0 ≤ (tReport - s.interactionTime) / Second :=
    Int.ediv_nonneg (by omega) hS.le
  have hq1 : (tReport - s.interactionTime) / Second < 8388608 :=
    Int.ediv_lt_of_lt_mul hS h1
  unfold remainingTime
  rw [hs, floatToInt_durationSeconds _ (by omega) h1]
  unfold wrapInt64
  omega

/-- C11 as stated fails: with a window of one minute and an anchor at 0, at the
instant when exactly one minute has elapsed (elapsed = W, not elapsed > W) line 286
holds and `interactionTime` is replaced by the current time. -/
theorem C11_anchor_replaced_at_exact_window :
    ¬ ((60000000000 : Int) - (⟨[], 1, 0⟩ : Session).interactionTime
        > (⟨"", 2, 1⟩ : Config).historyTimeoutMinutes * Minute) ∧
      (refreshInteractionTime ⟨"", 2, 1⟩ 60000000000 60000000005
          ⟨[], 1, 0⟩).interactionTime = 60000000005 ∧
      (refreshInteractionTime ⟨"", 2, 1⟩ 60000000000 60000000005
          ⟨[], 1, 0⟩).interactionTime ≠ (⟨[], 1, 0⟩ : Session).interactionTime := by
  have h := refreshInteractionTime_eq ⟨"", 2, 1⟩ 60000000000 60000000005 ⟨[], 1, 0⟩
    (by decide) (by decide) (by decide)
  rw [if_pos (by decide)] at h
  rw [h]
  decide

/-- C11 amended (lazy window anchor): the part of a user turn before line 286 leaves
`interactionTime` as it was; with elapsed = (clock reading on line 286) -
`interactionTime` and `W` the configured window, lines 286-288 replace `interactionTime`
by the current time exactly when elapsed has reached the window (elapsed >= W, elapsed = W
included) and otherwise leave the session unchanged; the remaining window time of line
290 is `W * 60` minus the whole seconds elapsed since the resulting anchor, and it is
reported as `remaining / 60` minutes and `remaining % 60` seconds. Proved for windows of
0 to 131072 minutes and clock readings that do not run backwards and are less than
524288 seconds apart, where the float64 arithmetic of `Minutes` and `Seconds` decides as
the exact values do. -/
theorem C11_lazy_window_anchor (cfg : Config) (s : Session) (tCheck tSet tReport : Int)
    (hW0 : 0 ≤ cfg.historyTimeoutMinutes) (hW : cfg.historyTimeoutMinutes ≤ 131072)
    (hclock : s.interactionTime ≤ tCheck ∧ tCheck ≤ tSet ∧ tSet ≤ tReport)
    (hnear : tReport - tCheck < 524288 * Second) :
    (∀ (up : Nat → Attempt) (text : String) (now : Int) (s0 : Session),
      (handleMessage cfg up text now s0).session.interactionTime = s0.interactionTime) ∧
    (windowAccounting cfg tCheck tSet tReport s).session
      = (if cfg.historyTimeoutMinutes * Minute ≤ tCheck - s.interactionTime then
          { s with interactionTime := tSet }
        else s) ∧
    remainingTime cfg tReport (windowAccounting cfg tCheck tSet tReport s).session
      = cfg.historyTimeoutMinutes * 60
          - (tReport
              - (windowAccounting cfg tCheck tSet tReport s).session.interactionTime)
            / Second ∧
    (windowAccounting cfg tCheck tSet tReport s).remainingMinutes
      = (remainingTime cfg tReport
          (windowAccounting cfg tCheck tSet tReport s).session).tdiv 60 ∧
    (windowAccounting cfg tCheck tSet tReport s).remainingSeconds
      = (remainingTime cfg tReport
          (windowAccounting cfg tCheck tSet tReport s).session).tmod 60 := by
  obtain ⟨hc1, hc2, hc3⟩ := hclock
  have hsess : (windowAccounting cfg tCheck tSet tReport s).session
      = (if cfg.historyTimeoutMinutes * Minute ≤ tCheck - s.interactionTime then
          { s with interactionTime := tSet }
        else s) := by
    unfold windowAccounting
    exact refreshInteractionTime_eq cfg tCheck tSet s hW0 hW hc1
  refine ⟨fun up text now s0 => handleMessage_interactionTime cfg up text now s0,
    hsess, ?_, rfl, rfl⟩
  rw [hsess]
  by_cases hle : cfg.historyTimeoutMinutes * Minute ≤ tCheck - s.interactionTime
  · rw [if_pos hle]
    exact remainingTime_eq cfg tReport _ hW0 hW hc3 (by
      show tReport - tSet < 8388608 * Second
      unfold Second at hnear ⊢
      omega)
  · rw [if_neg hle]
    exact remainingTime_eq cfg tReport s hW0 hW (by omega) (by
      unfold Second at hnear ⊢
      unfold Minute at hle
      omega)

theorem C11_lazy_window_anchor_witness :
    ((0 : Int) ≤ (⟨"", 2, 60⟩ : Config).historyTimeoutMinutes ∧
      (⟨"", 2, 60⟩ : Config).historyTimeoutMinutes ≤ 131072 ∧
      ((⟨[], 1, 0⟩ : Session).interactionTime ≤ 61000000000 ∧
        (61000000000 : Int) ≤ 61000000001 ∧ (61000000001 : Int) ≤ 61000000002) ∧
      (61000000002 : Int) - 61000000000 < 524288 * Second) ∧
    (windowAccounting ⟨"", 2, 60⟩ 61000000000 61000000001 61000000002
        ⟨[], 1, 0⟩).session = ⟨[], 1, 0⟩ ∧
    (windowAccounting ⟨"", 2, 60⟩ 61000000000 61000000001 61000000002
        ⟨[], 1, 0⟩).remainingMinutes = 58 ∧
    (windowAccounting ⟨"", 2, 60⟩ 61000000000 61000000001 61000000002
        ⟨[], 1, 0⟩).remainingSeconds = 59 := by
  obtain ⟨_, h2, h3, h4, h5⟩ :=
    C11_lazy_window_anchor ⟨"", 2, 60⟩ ⟨[], 1, 0⟩ 61000000000 61000000001 61000000002
      (by decide) (by decide) ⟨by decide, by decide, by decide⟩ (by decide)
  have hs : (windowAccounting ⟨"", 2, 60⟩ 61000000000 61000000001 61000000002
      ⟨[], 1, 0⟩).session = ⟨[], 1, 0⟩ := by
    rw [h2]
    decide
  rw [hs] at h3
  rw [hs, h3] at h4 h5
  refine ⟨⟨by decide, by decide, ⟨by decide, by decide, by decide⟩, by decide⟩, hs, ?_, ?_⟩
  · rw [h4]
    decide
  · rw [h5]
    decide

/-! ## Markdown escaping -/

/-- On these texts, in which no backslash stands before a special character, every
special character comes out with one backslash and the output reads back as the
input. -/
theorem escapeMarkdownV2_examples :
    escapeMarkdownV2 "a_b" = "a\\_b" ∧
      escapeMarkdownV2 "a\\b" = "a\\\\b" ∧
      escapeMarkdownV2 "(x^2) it\x27s ok." = "\\(x\\^2\\) it\\\x27s ok\\." ∧
      unescapeUnits (escapeMarkdownV2 "a_b").toList = some "a_b".toList ∧
      unescapeUnits (escapeMarkdownV2 "a\\b").toList = some "a\\b".toList ∧
      unescapeUnits (escapeMarkdownV2 "(x^2) it\x27s ok.").toList
        = some "(x^2) it\x27s ok.".toList := by
  decide

/-- C12 (escaping completeness), the code at a failing input: for the text made of a
backslash followed by an underscore, `escapeMarkdownV2` returns two backslashes followed
by the underscore. Read in units, that is an escaped backslash and then an underscore
without its backslash: the output is not made of escaped units, whereas the text with
every special character escaped is backslash, backslash, backslash, underscore. -/
theorem C12_backslash_underscore_left_unescaped :
    escapeMarkdownV2 "\\_" = "\\\\_" ∧
      unescapeUnits (escapeMarkdownV2 "\\_").toList = none ∧
      unescapeUnits "\\\\\\_".toList = some "\\_".toList := by
  decide

end Fyaitg
